import Mathlib

/-
Verification of the n-gram query parser and trigram data model of the
`nlp_final_project_2023` webapp (files `webapp/nlp_parser/_parser.py` and
`webapp/nlp_parser/_data_structures.py`).

Python strings are modelled as Lean `String` (processed through `String.data`
as `List Char`).  The character-class primitives (`str.isalpha`, `str.lower`,
whitespace for `str.split`/`str.strip`) are restricted to the scripts that
occur in this development: Basic Latin, Latin-1 letters, basic Greek and
Cyrillic.  On those code points the definitions agree with CPython; code
points outside them are treated as non-alphabetic, case-less and
non-whitespace, and no theorem below depends on any other script.

Python regular expressions are used in the source only through
`re.match(pattern, s)` coerced to `bool`, i.e. "does `pattern` match a
PREFIX of `s` starting at position 0".  The two patterns are translated as
dedicated backtracking matchers (`matchQuoted`, `reWordFrom`) whose shapes
mirror the regexes; `.` does not match a newline, as in Python without
`re.DOTALL`.
-/

namespace NlpParser

/-- Model of Python `str.isspace` / the default `str.split` separator set,
restricted to the ASCII whitespace characters. -/
def pyIsSpace (c : Char) : Bool :=
  c = ' ' || c = '\t' || c = '\n' || c = '\r' || c.toNat = 0x0B || c.toNat = 0x0C

/-- Model of Python `str.isalpha` on a single character, restricted to Basic
Latin, Latin-1 letters, basic Greek and Cyrillic (faithful to CPython on
those ranges). -/
def pyIsalphaChar (c : Char) : Bool :=
  let n := c.toNat
  decide ((0x41 ≤ n ∧ n ≤ 0x5A) ∨ (0x61 ≤ n ∧ n ≤ 0x7A) ∨
    (0xC0 ≤ n ∧ n ≤ 0xD6) ∨ (0xD8 ≤ n ∧ n ≤ 0xF6) ∨ (0xF8 ≤ n ∧ n ≤ 0xFF) ∨
    (0x391 ≤ n ∧ n ≤ 0x3A1) ∨ (0x3A3 ≤ n ∧ n ≤ 0x3C9) ∨
    (0x400 ≤ n ∧ n ≤ 0x481) ∨ (0x48A ≤ n ∧ n ≤ 0x4FF))

/-- Model of Python `str.isalpha` on a whole string: non-empty and every
character alphabetic. -/
def pyIsalpha (s : List Char) : Bool :=
  !s.isEmpty && s.all pyIsalphaChar

/-- Model of Python `str.lower` on a single character for the ranges above
(ASCII, Latin-1, basic Greek, Cyrillic А-Я and Ѐ-Џ); other characters are
left unchanged. -/
def pyLowerChar (c : Char) : Char :=
  let n := c.toNat
  if (0x41 ≤ n ∧ n ≤ 0x5A) ∨ (0xC0 ≤ n ∧ n ≤ 0xD6) ∨ (0xD8 ≤ n ∧ n ≤ 0xDE) ∨
      (0x391 ≤ n ∧ n ≤ 0x3A1) ∨ (0x3A3 ≤ n ∧ n ≤ 0x3AB) ∨ (0x410 ≤ n ∧ n ≤ 0x42F) then
    Char.ofNat (n + 0x20)
  else if 0x400 ≤ n ∧ n ≤ 0x40F then
    Char.ofNat (n + 0x50)
  else
    c

/-- Model of Python `str.lower`. -/
def pyLower (s : String) : String :=
  String.mk (s.data.map pyLowerChar)

/-- Model of Python `str.strip()` (no argument): drop whitespace from both
ends. -/
def pyStrip (l : List Char) : List Char :=
  (((l.dropWhile pyIsSpace).reverse.dropWhile pyIsSpace).reverse)

/-- Model of Python `str.split()` (no argument): split on runs of whitespace,
discarding empty pieces.  `acc` accumulates the current word in reverse. -/
def pySplitAux : List Char → List Char → List (List Char)
  | [], acc => if acc.isEmpty then [] else [acc.reverse]
  | c :: cs, acc =>
    if pyIsSpace c then
      if acc.isEmpty then pySplitAux cs [] else acc.reverse :: pySplitAux cs []
    else
      pySplitAux cs (c :: acc)

/-- Model of Python `str.split()` (no argument). -/
def pySplitWs (l : List Char) : List (List Char) :=
  pySplitAux l []

/-- Model of Python `str.split(sep)` for a one-character separator: keeps
empty pieces (`"a++b".split("+") == ["a", "", "b"]`). -/
def pySplitSep (sep : Char) : List Char → List (List Char)
  | [] => [[]]
  | c :: cs =>
    match pySplitSep sep cs with
    | [] => [[]]
    | h :: t => if c = sep then [] :: h :: t else (c :: h) :: t

/-- Character class `[a-zA-Zа-яА-Я]` from the regex in `is_a_word`
(note: the Cyrillic ranges exclude ё/Ё). -/
def latCyr (c : Char) : Bool :=
  let n := c.toNat
  decide ((0x61 ≤ n ∧ n ≤ 0x7A) ∨ (0x41 ≤ n ∧ n ≤ 0x5A) ∨
    (0x430 ≤ n ∧ n ≤ 0x44F) ∨ (0x410 ≤ n ∧ n ≤ 0x42F))

/-- Matcher for the regex fragment `.*q` at the current position: either `q`
matches here, or consume one non-newline character and continue.  (Greedy
versus lazy is irrelevant for the boolean "does it match".) -/
def dotStarThen (q : Char) : List Char → Bool
  | [] => false
  | c :: cs => c = q || (c ≠ '\n' && dotStarThen q cs)

/-- Matcher for the regex `q.*q` anchored at the start of the string. -/
def matchQuoted (q : Char) : List Char → Bool
  | [] => false
  | c :: cs => c = q && dotStarThen q cs

/-- Python source, `_parser.py`:
`return bool(re.match(r'\".*\"|\'.*\'', word))` — note `re.match` only
anchors at the START of the string. -/
def is_exact_form (word : String) : Bool :=
  matchQuoted '\"' word.data || matchQuoted '\'' word.data

/-- Matcher for the regex fragment `-?[a-zA-Zа-яА-Я]+` at the current
position (the tail of the word regex after the first alphabetic run). -/
def reWordTail (s : List Char) : Bool :=
  (match s with | [] => false | c :: _ => latCyr c) ||
  (match s with | '-' :: c :: _ => latCyr c | _ => false)

/-- Backtracking matcher for `[a-zA-Zа-яА-Я]+-?[a-zA-Zа-яА-Я]+` anchored at
the start: consume one alphabetic character, then either the run ends here
and `reWordTail` must match, or the run continues. -/
def reWordFrom : List Char → Bool
  | [] => false
  | c :: cs => latCyr c && (reWordTail cs || reWordFrom cs)

/-- Python source, `_parser.py`:
`return word.isalpha() or bool(re.match(r'[a-zA-Zа-яА-Я]+-?[a-zA-Zа-яА-Я]+', word))`. -/
def is_a_word (word : String) : Bool :=
  pyIsalpha word.data || reWordFrom word.data

/-- Python source, `_parser.py`: the module-level set `possible_pos_tags`. -/
def possible_pos_tags : List String :=
  ["ADJ", "ADP", "ADV", "AUX", "INTJ", "CCONJ", "NOUN", "DET",
   "PROPN", "NUM", "VERB", "PART", "PRON", "SCONJ", "SYM", "X"]

/-- Python source, `_parser.py`: `return word in possible_pos_tags`. -/
def is_pos_tag (word : String) : Bool :=
  possible_pos_tags.contains word

/-- Values stored in the requirement dictionaries produced by the parser: a
plain string (for `pos` and `word_form`) or a list of strings (for `lemma`). -/
inductive Val where
  | s : String → Val
  | l : List String → Val
  deriving DecidableEq, Repr

/-- Python `dict` with string keys, modelled as an insertion-ordered
association list without duplicate keys (the operations below preserve
that). -/
abbrev Dict := List (String × Val)

/-- Python `d[k] = v`: overwrite in place if the key exists, else append. -/
def dictSet : Dict → String → Val → Dict
  | [], k, v => [(k, v)]
  | (k₀, v₀) :: rest, k, v =>
    if k₀ = k then (k, v) :: rest else (k₀, v₀) :: dictSet rest k v

/-- Python `d.update(u)`: set every entry of `u` into `d`, in order. -/
def dictUpdate (d u : Dict) : Dict :=
  u.foldl (fun acc kv => dictSet acc kv.1 kv.2) d

/-- The structured error kinds behind the `HTTPException(400, detail=...)`
raises in `_parser.py`, distinguished by their detail message, under the
names the specification gives them. -/
inductive ReqError where
  | unrecognizedToken
  | tooManyPluses
  | invalidCombination
  | invalidLength
  deriving DecidableEq, Repr

/-- Type of the module-level `morph = MorphAnalyzer()` collaborator, reduced
to what the source uses: `[p.normal_form for p in morph.parse(word)]`.  The
analyzer is external, so it is passed as a parameter. -/
abbrev Morph := String → List String

/-- Python source, `_parser.py`:
`re.sub(r'\'|\"', '', t)` — remove every single- and double-quote
character, wherever it occurs. -/
def reSubQuotes (l : List Char) : List Char :=
  l.filter (fun c => !(c = '\'' || c = '\"'))

/-- Python `list(set(xs))`: the distinct elements.  CPython's set order is
unspecified; we fix first-occurrence order (`dedup`), and every theorem
about lemma lists is stated at the level of the underlying finite set. -/
def pySetList (xs : List String) : List String :=
  xs.dedup

/-- Python source, `_parser.py`, `parse_word`:
POS-tag branch, exact-form branch (`re.sub(r'\'|\"', '', word.lower())`),
word branch (`set([p.normal_form.lower() for p in morph.parse(word)])`),
else `raise HTTPException`. -/
def parse_word (morph : Morph) (word : String) : Except ReqError Dict :=
  if is_pos_tag word then
    .ok [("pos", Val.s word)]
  else if is_exact_form word then
    .ok [("word_form", Val.s (String.mk (reSubQuotes (pyLower word).data)))]
  else if is_a_word word then
    .ok [("lemma", Val.l (pySetList ((morph word).map pyLower)))]
  else
    .error .unrecognizedToken

/-- Python source, `_parser.py`, `parse_single_part`.  When `'+' in part`,
`part.split('+')` has at least two pieces, so the wildcard row of the inner
match (pieces of length < 2) is unreachable; it reuses the length error. -/
def parse_single_part (morph : Morph) (part : String) : Except ReqError Dict :=
  if part.data.contains '+' then
    let subparts := pySplitSep '+' part.data
    if subparts.length > 2 then
      .error .tooManyPluses
    else
      match subparts with
      | [a, b] =>
        if !((is_a_word (String.mk a) || is_exact_form (String.mk a)) &&
              is_pos_tag (String.mk b)) then
          .error .invalidCombination
        else do
          let pw ← parse_word morph (String.mk a)
          .ok (dictUpdate [("pos", Val.s (String.mk b))] pw)
      | _ => .error .tooManyPluses
  else
    parse_word morph part

/-- Loop body of `request_to_trigram`: `requirements_for_tokens[i+1] =
parse_single_part(part)` over the enumerated parts, with the first raised
exception propagating. -/
def buildReqs (morph : Morph) : Nat → List (List Char) → Except ReqError (List (Nat × Dict))
  | _, [] => .ok []
  | i, p :: ps => do
    let d ← parse_single_part morph (String.mk p)
    let rest ← buildReqs morph (i + 1) ps
    .ok ((i, d) :: rest)

/-- Python source, `_parser.py`, `request_to_trigram`:
`search_parts = request.strip().split()`; raise if the count is above 3 or
below 1; else fill the map keyed by `i+1`. -/
def request_to_trigram (morph : Morph) (request : String) : Except ReqError (List (Nat × Dict)) :=
  let search_parts := pySplitWs (pyStrip request.data)
  if search_parts.length > 3 || search_parts.length < 1 then
    .error .invalidLength
  else
    buildReqs morph 1 search_parts

/-- Python source, `_data_structures.py`: the `Token` dataclass.  (The type
hints declare `wordform`/`lemma`/`pos_tag` as `int`, but the rest of the
repository stores strings there; the equality under study compares the
fields structurally either way, so they are `String` here.) -/
structure Token where
  text_position : Nat × Nat
  sentence : Nat
  wordform : String
  «lemma» : String
  pos_tag : String
  deriving DecidableEq, Repr

/-- The field comparison of `Token.__eq__` between two actual `Token`
objects: wordform, lemma, POS tag and text span; `sentence` is not
compared. -/
def tokenFieldsEq (a b : Token) : Bool :=
  a.wordform = b.wordform && a.«lemma» = b.«lemma» &&
    a.pos_tag = b.pos_tag && a.text_position = b.text_position

/-- Errors raised by the data-structure layer: `ValueError` (the spec's
InvalidTrigramError), `TypeError` (the spec's TypeMismatchError), and the
`IndexError` Python would raise if a slot scan ran off the tuple. -/
inductive PyExn where
  | valueError
  | typeError
  | indexError
  deriving DecidableEq, Repr

/-- A Python value a `Token` may be compared against: `None`, another
`Token`, or a value of some other, incompatible kind (represented by an
integer, whose `== None` is `False`, like every other non-`None` builtin). -/
inductive PyVal where
  | none : PyVal
  | tok : Token → PyVal
  | int : Int → PyVal
  deriving DecidableEq, Repr

/-- Python `v == None` for a `PyVal` (no kind of value here overloads
equality with `None` to `True`). -/
def pyEqNone : PyVal → Bool
  | .none => true
  | .tok _ => false
  | .int _ => false

/-- Python source, `_data_structures.py`, `Token.__eq__`:
return `False` on `None`, raise `TypeError` on a non-`Token`, else compare
wordform, lemma, pos_tag and text_position. -/
def Token.eqPy (t : Token) (v : PyVal) : Except PyExn Bool :=
  if pyEqNone v then
    .ok false
  else
    match v with
    | .tok u => .ok (tokenFieldsEq t u)
    | _ => .error .typeError

/-- Python `x == y` where both `x` and `y` are `Optional[Token]` (as in the
`Trigram.__init__` guard): `None == None` is `True`; a `Token` against
`None`, in either order, goes through `Token.__eq__` and yields `False`;
two `Token`s compare their fields.  No case raises. -/
def optTokenEq : Option Token → Option Token → Bool
  | some a, some b => tokenFieldsEq a b
  | some _, none => false
  | none, some _ => false
  | none, none => true

/-- Python `trigram[i] == None` for an `Optional[Token]` slot. -/
def optTokenIsNone : Option Token → Bool
  | none => true
  | some _ => false

/-- Python source, `_data_structures.py`: the guard
`trigram[0] == trigram[1] == trigram[2] == None`, which by chained
comparison is `t0 == t1 and t1 == t2 and t2 == None`. -/
def trigramNoneGuard (t0 t1 t2 : Option Token) : Bool :=
  optTokenEq t0 t1 && optTokenEq t1 t2 && optTokenIsNone t2

/-- Model of the `while trigram[first_not_none] == None: first_not_none += 1`
scan: the first present slot with its index, `Option.none` standing for the
`IndexError` of running past index 2. -/
def firstNotNone (t0 t1 t2 : Option Token) : Option (Nat × Token) :=
  match t0 with
  | some t => some (0, t)
  | none =>
    match t1 with
    | some t => some (1, t)
    | none =>
      match t2 with
      | some t => some (2, t)
      | none => none

/-- Model of the `while trigram[last_not_none] == None: last_not_none -= 1`
scan, from index 2 downwards. -/
def lastNotNone (t0 t1 t2 : Option Token) : Option (Nat × Token) :=
  match t2 with
  | some t => some (2, t)
  | none =>
    match t1 with
    | some t => some (1, t)
    | none =>
      match t0 with
      | some t => some (0, t)
      | none => none

/-- The `Trigram` object: the stored tuple and the derived
`text_position`. -/
structure Trigram where
  trigram : Option Token × Option Token × Option Token
  text_position : Nat × Nat
  deriving DecidableEq, Repr

/-- Python source, `_data_structures.py`, `Trigram.__init__`: raise
`ValueError` if the chained guard holds, else scan for the first and last
present slots and derive the text span from their spans. -/
def Trigram.init (tg : Option Token × Option Token × Option Token) : Except PyExn Trigram :=
  let (t0, t1, t2) := tg
  if trigramNoneGuard t0 t1 t2 then
    .error .valueError
  else
    match firstNotNone t0 t1 t2, lastNotNone t0 t1 t2 with
    | some (_, tf), some (_, tl) =>
      .ok { trigram := (t0, t1, t2),
            text_position := (tf.text_position.1, tl.text_position.2) }
    | _, _ => .error .indexError

/-! ### Helper lemmas about the regex matchers -/

/-- The fragment matcher `dotStarThen q` succeeds exactly when `q` occurs in
the list with no newline before it. -/
theorem dotStarThen_iff (q : Char) (l : List Char) :
    dotStarThen q l = true ↔ ∃ pre post, l = pre ++ q :: post ∧ '\n' ∉ pre := by
  induction l with
  | nil =>
    constructor
    · intro h; exact absurd h (by simp [dotStarThen])
    · rintro ⟨pre, post, h, -⟩
      exact absurd (List.append_eq_nil.mp h.symm).2 (List.cons_ne_nil _ _)
  | cons c cs ih =>
    simp only [dotStarThen, Bool.or_eq_true, Bool.and_eq_true, decide_eq_true_eq,
      bne_iff_ne, ne_eq]
    constructor
    · rintro (hq | ⟨hnl, hrec⟩)
      · exact ⟨[], cs, by simp [hq], by simp⟩
      · obtain ⟨pre, post, hl, hpre⟩ := ih.mp hrec
        refine ⟨c :: pre, post, by simp [hl], ?_⟩
        simp only [List.mem_cons, not_or]
        exact ⟨fun h => hnl h.symm, hpre⟩
    · rintro ⟨pre, post, hl, hpre⟩
      cases pre with
      | nil =>
        injection hl with h1 _
        exact Or.inl h1
      | cons p pre2 =>
        simp only [List.cons_append] at hl
        injection hl with h1 h2
        subst h1
        simp only [List.mem_cons, not_or] at hpre
        exact Or.inr ⟨fun h => hpre.1 h.symm, ih.mpr ⟨pre2, post, h2, hpre.2⟩⟩

/-- Requirement object produced by the specification's reading of
`is_exact_form`: the whole string is wrapped in one matching pair of
quotes (first character and last character are the same quote, length at
least 2).  Used to compare the spec's sentence with the code. -/
def specFullyQuoted (s : String) : Bool :=
  decide (2 ≤ s.data.length) &&
  (match s.data.head?, s.data.getLast? with
   | some a, some b => (a = '\"' || a = '\'') && a = b
   | _, _ => false)

/-- C1 — counterexample.  On the string `'a'b` (a quoted form followed by a
stray character) the code's `is_exact_form` answers `true`, while the
claim's "fully wrapped, covering the whole string" answers `false`: the
two predicates are not equivalent. -/
theorem c1_counterexample :
    ¬ (is_exact_form (String.mk ['\'', 'a', '\'', 'b']) = true ↔
        specFullyQuoted (String.mk ['\'', 'a', '\'', 'b']) = true) := by
  decide

/-- C1 — amended.  `is_exact_form(s)` is true iff `s` STARTS with a quote
character `q` (single or double) and `q` occurs again later in `s` with no
newline in between; characters after that second occurrence are not
examined, because `re.match` only anchors at the start of the string. -/
theorem c1_is_exact_form_prefix_match (s : String) :
    is_exact_form s = true ↔
      ∃ q pre post, (q = '\"' ∨ q = '\'') ∧
        s.data = q :: (pre ++ q :: post) ∧ '\n' ∉ pre := by
  unfold is_exact_form
  cases hd : s.data with
  | nil => simp [matchQuoted]
  | cons c cs =>
    simp only [matchQuoted, Bool.or_eq_true, Bool.and_eq_true, decide_eq_true_eq]
    constructor
    · rintro (⟨hq, h⟩ | ⟨hq, h⟩) <;>
        · obtain ⟨pre, post, hcs, hpre⟩ := (dotStarThen_iff _ _).mp h
          exact ⟨c, pre, post, by simp [hq], by rw [hq, hcs], hpre⟩
    · rintro ⟨q, pre, post, hq, heq, hpre⟩
      injection heq with h1 h2
      subst h1; subst h2
      rcases hq with rfl | rfl
      · exact Or.inl ⟨rfl, (dotStarThen_iff _ _).mpr ⟨pre, post, rfl, hpre⟩⟩
      · exact Or.inr ⟨rfl, (dotStarThen_iff _ _).mpr ⟨pre, post, rfl, hpre⟩⟩

/-- C1 — witness: the amended characterization applied to the concrete
string `'a'b`, instantiating the existential with the decomposition
around the two single quotes. -/
theorem c1_witness :
    is_exact_form (String.mk ['\'', 'a', '\'', 'b']) = true :=
  (c1_is_exact_form_prefix_match (String.mk ['\'', 'a', '\'', 'b'])).mpr
    ⟨'\'', ['a'], ['b'], Or.inr rfl, rfl, by decide⟩

/-- The backtracking word matcher succeeds exactly when the string starts
with an alphabetic character followed either by another alphabetic
character or by a hyphen and an alphabetic character.  (Any longer
decomposition into `run-run` implies this two/three-character prefix
condition, and conversely that prefix already realizes the pattern with
one-character runs.) -/
theorem reWordFrom_iff (l : List Char) :
    reWordFrom l = true ↔
      ∃ c0 c1 t, l = c0 :: c1 :: t ∧ latCyr c0 = true ∧
        (latCyr c1 = true ∨ (c1 = '-' ∧ ∃ c2 t2, t = c2 :: t2 ∧ latCyr c2 = true)) := by
  induction l with
  | nil => simp [reWordFrom]
  | cons c cs ih =>
    simp only [reWordFrom, Bool.and_eq_true, Bool.or_eq_true]
    constructor
    · rintro ⟨hc, htail | hrec⟩
      · cases cs with
        | nil => exact absurd htail (by simp [reWordTail])
        | cons d t =>
          rw [reWordTail, Bool.or_eq_true] at htail
          rcases htail with hd | hd
          · exact ⟨c, d, t, rfl, hc, Or.inl hd⟩
          · refine ⟨c, d, t, rfl, hc, Or.inr ?_⟩
            cases t with
            | nil =>
              cases d
              simp_all [reWordTail]
            | cons e t2 =>
              by_cases hdd : d = '-'
              · subst hdd
                exact ⟨rfl, e, t2, rfl, by simpa [reWordTail] using hd⟩
              · exact absurd hd (by
                  cases cs' : (e :: t2) <;> simp [reWordTail, hdd])
      · obtain ⟨c0, c1, t, hcs, h0, hd⟩ := ih.mp hrec
        exact ⟨c, c0, c1 :: t, by rw [hcs], hc, Or.inl h0⟩
    · rintro ⟨c0, c1, t, heq, h0, hd⟩
      injection heq with h1 h2
      subst h1; subst h2
      refine ⟨h0, Or.inl ?_⟩
      rcases hd with h1 | ⟨rfl, c2, t2, rfl, h2⟩
      · cases t with
        | nil => simp [reWordTail, h1]
        | cons e t2 => simp [reWordTail, h1]
      · simp [reWordTail, h2]

/-- Requirement object produced by the specification's reading of `is_word`:
the whole string is alphabetic, or the whole string is an alphabetic run,
one hyphen, and another alphabetic run.  Used to compare the spec's
sentence with the code. -/
def specIsWord (s : String) : Bool :=
  pyIsalpha s.data ||
  (match pySplitSep '-' s.data with
   | [a, b] => !a.isEmpty && a.all latCyr && !b.isEmpty && b.all latCyr
   | _ => false)

/-- C2 — counterexample.  On the string `ab1` the code's `is_a_word`
answers `true` (the regex matches the prefix `ab` and the trailing `1` is
never examined), while the claim requires rejecting strings with
non-alphabetic trailing characters: the two predicates are not
equivalent. -/
theorem c2_counterexample :
    ¬ (is_a_word "ab1" = true ↔ specIsWord "ab1" = true) := by
  decide

/-- C2 — amended.  `is_a_word(s)` is true iff `s` is non-empty and composed
entirely of alphabetic characters (Python `str.isalpha`), OR `s` begins
with an alphabetic character (Latin or Cyrillic without ё) followed by
another such character or by a hyphen and such a character.  Everything
after that prefix is not examined (`re.match` is a prefix match), so
strings with non-alphabetic tails (`ab1`) and multi-hyphen compounds
(`как-то-нибудь`) are accepted. -/
theorem c2_is_a_word_prefix_match (s : String) :
    is_a_word s = true ↔
      (s.data ≠ [] ∧ ∀ c ∈ s.data, pyIsalphaChar c = true) ∨
      (∃ c0 c1 t, s.data = c0 :: c1 :: t ∧ latCyr c0 = true ∧
        (latCyr c1 = true ∨ (c1 = '-' ∧ ∃ c2 t2, t = c2 :: t2 ∧ latCyr c2 = true))) := by
  unfold is_a_word
  rw [Bool.or_eq_true, reWordFrom_iff]
  constructor
  · rintro (h | h)
    · rw [pyIsalpha, Bool.and_eq_true] at h
      refine Or.inl ⟨?_, ?_⟩
      · intro hemp
        simp [hemp] at h
      · simpa [List.all_eq_true] using h.2
    · exact Or.inr h
  · rintro (⟨hne, hall⟩ | h)
    · refine Or.inl ?_
      simp only [pyIsalpha, Bool.and_eq_true, List.all_eq_true]
      exact ⟨by simpa [List.isEmpty_iff] using hne, hall⟩
    · exact Or.inr h

/-- C2 — witness: the amended characterization applied to the concrete
string `ab1`, through the prefix disjunct with runs `a` and `b`. -/
theorem c2_witness : is_a_word "ab1" = true :=
  (c2_is_a_word_prefix_match "ab1").mpr
    (Or.inr ⟨'a', 'b', ['1'], rfl, by decide, Or.inl (by decide)⟩)

/-- Stripping only the enclosing pair of quotes, as the specification's
`strip_quotes` describes it: drop the first and the last character.  Used
to compare the spec's sentence with the code. -/
def specStripEnclosing (s : String) : String :=
  String.mk (s.data.drop 1).dropLast

/-- C3 — counterexample.  On the input `"it's"` (a double-quoted form with
an interior single quote) the code returns the word form `its`: the
`re.sub` removes EVERY quote character, not only the enclosing pair, so
the interior quote is not preserved as the claim states. -/
theorem c3_counterexample :
    parse_word (fun _ => []) (String.mk ['\"', 'i', 't', '\'', 's', '\"']) =
      .ok [("word_form", Val.s "its")] ∧
    "its" ≠ specStripEnclosing (pyLower (String.mk ['\"', 'i', 't', '\'', 's', '\"'])) := by
  exact ⟨rfl, by decide⟩

/-- C3 — amended.  When `is_pos_tag(word)` is false and `is_exact_form(word)`
is true, `parse_word` returns a dictionary with the single key `word_form`
whose value is the lowercased input with ALL single- and double-quote
characters removed, wherever they occur (interior quotes included). -/
theorem c3_parse_word_exact_form (m : Morph) (w : String)
    (h1 : is_pos_tag w = false) (h2 : is_exact_form w = true) :
    parse_word m w =
      .ok [("word_form",
        Val.s (String.mk ((pyLower w).data.filter
          (fun c => decide (c ≠ '\'' ∧ c ≠ '\"')))))] := by
  have hfil : reSubQuotes (pyLower w).data =
      (pyLower w).data.filter (fun c => decide (c ≠ '\'' ∧ c ≠ '\"')) := by
    unfold reSubQuotes
    apply List.filter_congr
    intro c _
    by_cases h3 : c = '\'' <;> by_cases h4 : c = '\"' <;> simp [h3, h4]
  simp [parse_word, h1, h2, hfil]

/-- C3 — witness: the amended branch theorem applied to the concrete quoted
input `'AB'`, yielding the lowercased, quote-free word form `ab`. -/
theorem c3_witness :
    parse_word (fun _ => []) (String.mk ['\'', 'A', 'B', '\'']) =
      .ok [("word_form", Val.s "ab")] := by
  have h := c3_parse_word_exact_form (fun _ => [])
    (String.mk ['\'', 'A', 'B', '\'']) (by decide) (by decide)
  rw [h]
  exact congrArg Except.ok (by decide)

/-- C4 — counterexample resolver: an external morphological analyzer that
answers differently on `Ab` and on its lowercasing `ab` (nothing in the
code constrains the analyzer's behavior across case variants). -/
def c4morph : Morph := fun w => if w = "Ab" then ["x"] else ["y"]

/-- C4 — counterexample.  With the resolver `c4morph` and the input `Ab`
(not a POS tag, not an exact form, a word), the code returns the normal
forms for `Ab` itself — the claim, which says the resolver is invoked on
the LOWERCASED input, would instead require the normal forms for `ab`. -/
theorem c4_counterexample :
    ¬ ∃ L, parse_word c4morph "Ab" = .ok [("lemma", Val.l L)] ∧
        L.toFinset = ((c4morph (pyLower "Ab")).map pyLower).toFinset := by
  rintro ⟨L, hL, hset⟩
  have hcode : parse_word c4morph "Ab" = .ok [("lemma", Val.l ["x"])] := by rfl
  rw [hcode] at hL
  simp only [Except.ok.injEq, List.cons.injEq, Prod.mk.injEq, Val.l.injEq,
    and_true, true_and] at hL
  rw [← hL] at hset
  exact absurd hset (by decide)

/-- C4 — amended.  When the input is neither a POS tag nor an exact form
but is a word, `parse_word` invokes the morphological resolver on the
input word exactly as given (NOT lowercased), and returns a dictionary
with single key `lemma` holding the distinct, lowercased normal forms of
the resolver's answer for that word (lowercasing is applied to the
outputs, not the input). -/
theorem c4_parse_word_lemma_branch (m : Morph) (w : String)
    (h1 : is_pos_tag w = false) (h2 : is_exact_form w = false)
    (h3 : is_a_word w = true) :
    ∃ L, parse_word m w = .ok [("lemma", Val.l L)] ∧ L.Nodup ∧
      L.toFinset = ((m w).map pyLower).toFinset := by
  refine ⟨pySetList ((m w).map pyLower), by simp [parse_word, h1, h2, h3], ?_, ?_⟩
  · exact List.nodup_dedup _
  · unfold pySetList
    ext a
    simp [List.mem_toFinset, List.mem_dedup]

/-- C4 — witness: the lemma-branch theorem applied to the word `Run` with a
resolver returning a duplicated, mixed-case answer; the resulting lemma
list is duplicate-free and equals the lowercased answer as a set. -/
theorem c4_witness :
    ∃ L, parse_word (fun _ => ["Run", "RUN"]) "Run" = .ok [("lemma", Val.l L)] ∧
      L.Nodup ∧ L.toFinset = ((["Run", "RUN"].map pyLower).toFinset : Finset String) := by
  exact c4_parse_word_lemma_branch (fun _ => ["Run", "RUN"]) "Run"
    (by decide) (by decide) (by decide)

/-- Splitting on a separator yields two or more pieces only when the
separator occurs in the list. -/
theorem pySplitSep_sep_mem (sep : Char) (l : List Char) (a b : List Char)
    (t : List (List Char)) (h : pySplitSep sep l = a :: b :: t) : sep ∈ l := by
  induction l generalizing a b t with
  | nil => simp [pySplitSep] at h
  | cons c cs ih =>
    by_cases hc : c = sep
    · exact hc ▸ List.mem_cons_self _ _
    · simp only [pySplitSep] at h
      cases hsp : pySplitSep sep cs with
      | nil => rw [hsp] at h; simp at h
      | cons h0 t0 =>
        rw [hsp] at h
        simp only [hc, if_false, List.cons.injEq] at h
        rw [h.2] at hsp
        exact List.mem_cons_of_mem _ (ih _ _ _ hsp)

/-- When the guard `is_a_word(w) or is_exact_form(w)` holds, `parse_word`
always succeeds (one of its three success branches applies). -/
theorem parse_word_isOk (m : Morph) (w : String)
    (h : (is_a_word w || is_exact_form w) = true) :
    ∃ pw, parse_word m w = .ok pw := by
  rw [Bool.or_eq_true] at h
  by_cases h1 : is_pos_tag w = true
  · exact ⟨[("pos", Val.s w)], by simp [parse_word, h1]⟩
  · by_cases h2 : is_exact_form w = true
    · exact ⟨[("word_form", Val.s (String.mk (reSubQuotes (pyLower w).data)))],
        by simp [parse_word, h1, h2]⟩
    · have h3 : is_a_word w = true := by
        rcases h with h | h
        · exact h
        · exact absurd h h2
      exact ⟨[("lemma", Val.l (pySetList ((m w).map pyLower)))],
        by simp [parse_word, h1, h2, h3]⟩

/-- Shape of every successful `parse_word` result: a one-entry dictionary
whose key records which branch fired; the `word_form` and `lemma` branches
are only reachable when the input is not a POS tag. -/
theorem parse_word_shape (m : Morph) (w : String) (d : Dict)
    (h : parse_word m w = .ok d) :
    (is_pos_tag w = true ∧ d = [("pos", Val.s w)]) ∨
    (is_pos_tag w = false ∧ ∃ v, d = [("word_form", v)]) ∨
    (is_pos_tag w = false ∧ ∃ v, d = [("lemma", v)]) := by
  unfold parse_word at h
  cases h1 : is_pos_tag w with
  | true =>
    simp only [h1, if_true] at h
    left
    exact ⟨rfl, (Except.ok.inj h).symm⟩
  | false =>
    simp only [h1, Bool.false_eq_true, if_false] at h
    cases h2 : is_exact_form w with
    | true =>
      simp only [h2, if_true] at h
      exact Or.inr (Or.inl ⟨rfl, _, (Except.ok.inj h).symm⟩)
    | false =>
      simp only [h2, Bool.false_eq_true, if_false] at h
      cases h3 : is_a_word w with
      | true =>
        simp only [h3, if_true] at h
        exact Or.inr (Or.inr ⟨rfl, _, (Except.ok.inj h).symm⟩)
      | false =>
        simp only [h3, Bool.false_eq_true, if_false] at h
        exact Except.noConfusion h

/-- Shared trivial resolver for concrete evaluations (the external
analyzer's answer is irrelevant to the control flow under study). -/
def morphNull : Morph := fun _ => []

/-- C5 — counterexample.  On the segment `NOUN+VERB` the guard passes
(`NOUN` is alphabetic, `VERB` is a POS tag), but `parse_word("NOUN")`
takes the POS-tag branch and `result.update` OVERWRITES the `pos` entry:
the returned `pos` value is `NOUN`, not the right-hand side `VERB` as the
claim states. -/
theorem c5_counterexample :
    parse_single_part morphNull "NOUN+VERB" = .ok [("pos", Val.s "NOUN")] ∧
    ("NOUN" : String) ≠ "VERB" :=
  ⟨rfl, by decide⟩

/-- C5 — amended.  For a segment splitting on `+` into `[a, b]`: if
`(is_a_word(a) or is_exact_form(a)) and is_pos_tag(b)`, the result is
`{pos: b}` updated with `parse_word(a)`, whose entries OVERRIDE the `pos`
entry; hence the returned `pos` value is `a` when `a` is itself a POS tag
and `b` otherwise.  If the condition fails, the call fails with
InvalidCombinationError. -/
theorem c5_parse_single_part_plus (m : Morph) (part : String) (a b : List Char)
    (hsplit : pySplitSep '+' part.data = [a, b]) :
    ((((is_a_word (String.mk a) || is_exact_form (String.mk a)) &&
        is_pos_tag (String.mk b)) = true) →
      ∃ pw, parse_word m (String.mk a) = .ok pw ∧
        parse_single_part m part = .ok (dictUpdate [("pos", Val.s (String.mk b))] pw) ∧
        List.lookup "pos" (dictUpdate [("pos", Val.s (String.mk b))] pw) =
          some (Val.s (if is_pos_tag (String.mk a) = true
                       then String.mk a else String.mk b))) ∧
    ((((is_a_word (String.mk a) || is_exact_form (String.mk a)) &&
        is_pos_tag (String.mk b)) = false) →
      parse_single_part m part = .error .invalidCombination) := by
  have hmem : '+' ∈ part.data := pySplitSep_sep_mem '+' part.data a b [] hsplit
  constructor
  · intro hg
    have hg2 : (is_a_word (String.mk a) || is_exact_form (String.mk a)) = true ∧
        is_pos_tag (String.mk b) = true := by
      rw [Bool.and_eq_true] at hg
      exact hg
    obtain ⟨pw, hpw⟩ := parse_word_isOk m (String.mk a) hg2.1
    refine ⟨pw, hpw, ?_, ?_⟩
    · simp [parse_single_part, hmem, hsplit, hg, hpw]
      rfl
    · rcases parse_word_shape m (String.mk a) pw hpw with
        ⟨hpt, rfl⟩ | ⟨hpt, v, rfl⟩ | ⟨hpt, v, rfl⟩ <;>
          simp [dictUpdate, dictSet, List.lookup, hpt]
  · intro hg
    simp [parse_single_part, hmem, hsplit, hg]

/-- C5 — witness: the amended theorem applied to the concrete segment
`cat+NOUN`, whose guard holds; the resulting dictionary carries
`pos = NOUN` because `cat` is not itself a POS tag. -/
theorem c5_witness :
    ∃ pw, parse_word morphNull (String.mk ['c', 'a', 't']) = .ok pw ∧
      parse_single_part morphNull "cat+NOUN" =
        .ok (dictUpdate [("pos", Val.s (String.mk ['N', 'O', 'U', 'N']))] pw) ∧
      List.lookup "pos" (dictUpdate [("pos", Val.s (String.mk ['N', 'O', 'U', 'N']))] pw) =
        some (Val.s (if is_pos_tag (String.mk ['c', 'a', 't']) = true
                     then String.mk ['c', 'a', 't'] else String.mk ['N', 'O', 'U', 'N'])) :=
  (c5_parse_single_part_plus morphNull "cat+NOUN" ['c', 'a', 't'] ['N', 'O', 'U', 'N']
    (by decide)).1 (by decide)

/-- The only error `parse_word` can raise is the unrecognized-token one. -/
theorem parse_word_error_kind (m : Morph) (w : String) (e : ReqError)
    (h : parse_word m w = .error e) : e = .unrecognizedToken := by
  unfold parse_word at h
  split_ifs at h
  all_goals
    first
      | exact Except.noConfusion h
      | exact (Except.error.inj h).symm

/-- `parse_single_part` never raises the length error: its failures are
too-many-pluses, invalid-combination, or the unrecognized-token error
propagated from `parse_word`. -/
theorem parse_single_part_error_kind (m : Morph) (p : String) (e : ReqError)
    (h : parse_single_part m p = .error e) : e ≠ .invalidLength := by
  unfold parse_single_part at h
  by_cases hc : p.data.contains '+' = true
  · simp only [hc, if_true] at h
    by_cases hlen : (pySplitSep '+' p.data).length > 2
    · rw [if_pos hlen] at h
      rw [← Except.error.inj h]
      decide
    · rw [if_neg hlen] at h
      cases hs : pySplitSep '+' p.data with
      | nil =>
        rw [hs] at h
        have h2 : Except.error (α := Dict) ReqError.tooManyPluses = .error e := h
        rw [← Except.error.inj h2]
        decide
      | cons x xs =>
        cases xs with
        | nil =>
          rw [hs] at h
          have h2 : Except.error (α := Dict) ReqError.tooManyPluses = .error e := h
          rw [← Except.error.inj h2]
          decide
        | cons y ys =>
          cases ys with
          | nil =>
            rw [hs] at h
            by_cases hg : ((is_a_word (String.mk x) || is_exact_form (String.mk x)) &&
                is_pos_tag (String.mk y)) = true
            · simp only [hg, Bool.not_true, Bool.false_eq_true, if_false] at h
              cases hq : parse_word m (String.mk x) with
              | error e2 =>
                rw [hq] at h
                have h2 : Except.error (ε := ReqError) (α := Dict) e2 = .error e := h
                rw [← Except.error.inj h2, parse_word_error_kind m (String.mk x) e2 hq]
                decide
              | ok pw =>
                rw [hq] at h
                have h2 : Except.ok (ε := ReqError)
                    (dictUpdate [("pos", Val.s (String.mk y))] pw) = .error e := h
                exact Except.noConfusion h2
            · simp only [hg, Bool.not_false, if_true] at h
              rw [← Except.error.inj h]
              decide
          | cons z zs =>
            rw [hs] at h
            have h2 : Except.error (α := Dict) ReqError.tooManyPluses = .error e := h
            rw [← Except.error.inj h2]
            decide
  · simp only [hc, if_false] at h
    rw [parse_word_error_kind m p e h]
    decide

/-- The loop of `request_to_trigram` never raises the length error either. -/
theorem buildReqs_error_kind (m : Morph) (ps : List (List Char)) (i : Nat) (e : ReqError)
    (h : buildReqs m i ps = .error e) : e ≠ .invalidLength := by
  induction ps generalizing i with
  | nil =>
    exact Except.noConfusion
      (show Except.ok (ε := ReqError) ([] : List (Nat × Dict)) = .error e from h)
  | cons p ps ih =>
    unfold buildReqs at h
    cases hp : parse_single_part m (String.mk p) with
    | error e2 =>
      rw [hp] at h
      have h2 : Except.error (ε := ReqError) (α := List (Nat × Dict)) e2 = .error e := h
      rw [← Except.error.inj h2]
      exact parse_single_part_error_kind m (String.mk p) e2 hp
    | ok d =>
      rw [hp] at h
      cases hr : buildReqs m (i + 1) ps with
      | error e2 =>
        rw [hr] at h
        have h2 : Except.error (ε := ReqError) (α := List (Nat × Dict)) e2 = .error e := h
        rw [Except.error.inj h2] at hr
        exact ih (i + 1) hr
      | ok rest =>
        rw [hr] at h
        have h2 : Except.ok (ε := ReqError) ((i, d) :: rest) = .error e := h
        exact Except.noConfusion h2

/-- Successful runs of the loop of `request_to_trigram`: one entry per
part, the `j`-th entry keyed `i + j` and holding the successful
`parse_single_part` of the `j`-th part. -/
theorem buildReqs_ok_spec (m : Morph) (ps : List (List Char)) (i : Nat)
    (l : List (Nat × Dict)) (h : buildReqs m i ps = .ok l) :
    l.length = ps.length ∧
    ∀ j, j < ps.length → ∃ d,
      parse_single_part m (String.mk (ps.getD j [])) = .ok d ∧
      l.get? j = some (i + j, d) := by
  induction ps generalizing i l with
  | nil =>
    have h2 : Except.ok (ε := ReqError) ([] : List (Nat × Dict)) = .ok l := h
    rw [← Except.ok.inj h2]
    exact ⟨rfl, by intro j hj; exact absurd hj (by simp)⟩
  | cons p ps ih =>
    unfold buildReqs at h
    cases hp : parse_single_part m (String.mk p) with
    | error e2 =>
      rw [hp] at h
      exact Except.noConfusion (show Except.error (α := List (Nat × Dict)) e2 = .ok l from h)
    | ok d =>
      rw [hp] at h
      cases hr : buildReqs m (i + 1) ps with
      | error e2 =>
        rw [hr] at h
        exact Except.noConfusion (show Except.error (α := List (Nat × Dict)) e2 = .ok l from h)
      | ok rest =>
        rw [hr] at h
        have h2 : Except.ok (ε := ReqError) ((i, d) :: rest) = .ok l := h
        obtain ⟨hlen, hspec⟩ := ih (i + 1) rest hr
        rw [← Except.ok.inj h2]
        refine ⟨by simp [hlen], ?_⟩
        intro j hj
        cases j with
        | zero => exact ⟨d, hp, by simp⟩
        | succ j2 =>
          obtain ⟨d2, hd2, hget⟩ := hspec j2 (by simpa using hj)
          refine ⟨d2, by simpa using hd2, ?_⟩
          simp only [List.get?_cons_succ, hget]
          congr 2
          omega

/-- C6 — `request_to_trigram` raises the length error exactly when the
trimmed, whitespace-split request has 0 or more than 3 segments; every
successful run has one entry per segment, keyed by 1-based position and
holding the successful `parse_single_part` of that segment. -/
theorem c6_request_to_trigram_spec (m : Morph) (r : String) :
    (request_to_trigram m r = .error .invalidLength ↔
      ((pySplitWs (pyStrip r.data)).length < 1 ∨
        3 < (pySplitWs (pyStrip r.data)).length)) ∧
    (∀ l, request_to_trigram m r = .ok l →
      1 ≤ l.length ∧ l.length ≤ 3 ∧
      l.length = (pySplitWs (pyStrip r.data)).length ∧
      ∀ j, j < (pySplitWs (pyStrip r.data)).length → ∃ d,
        parse_single_part m (String.mk ((pySplitWs (pyStrip r.data)).getD j [])) = .ok d ∧
        l.get? j = some (j + 1, d)) := by
  by_cases hlen : ((pySplitWs (pyStrip r.data)).length > 3 ∨
      (pySplitWs (pyStrip r.data)).length < 1)
  · have hreq : request_to_trigram m r = .error .invalidLength := by
      unfold request_to_trigram
      rw [if_pos (by simpa using hlen)]
    constructor
    · rw [hreq]
      simp only [true_iff]
      exact hlen.symm
    · intro l hl
      rw [hreq] at hl
      exact Except.noConfusion hl
  · have hreq : request_to_trigram m r = buildReqs m 1 (pySplitWs (pyStrip r.data)) := by
      unfold request_to_trigram
      rw [if_neg (by simpa using hlen)]
    push_neg at hlen
    constructor
    · rw [hreq]
      constructor
      · intro h
        exact absurd rfl (buildReqs_error_kind m _ 1 .invalidLength h)
      · intro h
        rcases h with h | h
        · omega
        · omega
    · intro l hl
      rw [hreq] at hl
      obtain ⟨hlength, hspec⟩ := buildReqs_ok_spec m _ 1 l hl
      refine ⟨by omega, by omega, hlength, ?_⟩
      intro j hj
      obtain ⟨d, hd, hget⟩ := hspec j hj
      exact ⟨d, hd, by simpa [Nat.add_comm] using hget⟩

/-- C6 — witness: on the two-segment request `cat dog` (with whitespace to
trim), the theorem's success clause yields the 1-based keys and the
per-segment parses; the error clause is vacuously dischargeable and the
success clause is applied to the concrete run. -/
theorem c6_witness :
    ∃ d, parse_single_part morphNull
        (String.mk ((pySplitWs (pyStrip ((" cat  dog " : String).data))).getD 1 [])) = .ok d ∧
      (match request_to_trigram morphNull " cat  dog " with
        | .ok l => l.get? 1
        | .error _ => Option.none) = some (2, d) := by
  have hrun : request_to_trigram morphNull " cat  dog " =
      .ok [(1, [("lemma", Val.l [])]), (2, [("lemma", Val.l [])])] := by rfl
  obtain ⟨d, hd, hget⟩ :=
    ((c6_request_to_trigram_spec morphNull " cat  dog ").2 _ hrun).2.2.2 1 (by decide)
  refine ⟨d, hd, ?_⟩
  rw [hrun]
  simpa using hget

/-- C7 — constructing a `Trigram` fails (with the `ValueError` the spec
calls InvalidTrigramError) exactly when all three slots are absent; with
at least one slot present the construction always succeeds (the slot
scans cannot run off the tuple). -/
theorem c7_trigram_init_fails_iff (t0 t1 t2 : Option Token) :
    ((∃ e, Trigram.init (t0, t1, t2) = .error e) ↔
      (t0 = none ∧ t1 = none ∧ t2 = none)) ∧
    ((t0 = none ∧ t1 = none ∧ t2 = none) →
      Trigram.init (t0, t1, t2) = .error .valueError) := by
  cases t0 <;> cases t1 <;> cases t2 <;>
    simp [Trigram.init, trigramNoneGuard, optTokenEq, optTokenIsNone,
      firstNotNone, lastNotNone]

/-- C7 — witness: the failure direction of the theorem applied to the
all-absent triple. -/
theorem c7_witness :
    Trigram.init ((none : Option Token), (none : Option Token), (none : Option Token)) =
      .error .valueError :=
  (c7_trigram_init_fails_iff none none none).2 ⟨rfl, rfl, rfl⟩

/-- C8 — the derived text span of every successfully constructed `Trigram`
is (span start of the first present slot scanning 0→2, span end of the
last present slot scanning 2→0); independently phrased: the first and
last elements of the list of present tokens.  The stored tuple is the
argument tuple. -/
theorem c8_trigram_span (t0 t1 t2 : Option Token) (tr : Trigram)
    (h : Trigram.init (t0, t1, t2) = .ok tr) :
    ∃ tf tl, ([t0, t1, t2].filterMap id).head? = some tf ∧
      ([t0, t1, t2].filterMap id).getLast? = some tl ∧
      tr.text_position = (tf.text_position.1, tl.text_position.2) ∧
      tr.trigram = (t0, t1, t2) := by
  cases t0 <;> cases t1 <;> cases t2 <;>
    simp_all [Trigram.init, trigramNoneGuard, optTokenEq, optTokenIsNone,
      firstNotNone, lastNotNone] <;>
    (subst h; exact ⟨rfl, rfl⟩)

/-- C8 — witness: a trigram with only the middle slot present derives its
span from that slot alone. -/
theorem c8_witness :
    ∃ tf tl,
      ([Option.none, some (Token.mk (3, 7) 0 "w" "l" "NOUN"), Option.none].filterMap id).head? =
        some tf ∧
      ([Option.none, some (Token.mk (3, 7) 0 "w" "l" "NOUN"), Option.none].filterMap id).getLast? =
        some tl ∧
      (Trigram.mk (none, some (Token.mk (3, 7) 0 "w" "l" "NOUN"), none) (3, 7)).text_position =
        (tf.text_position.1, tl.text_position.2) ∧
      (Trigram.mk (none, some (Token.mk (3, 7) 0 "w" "l" "NOUN"), none) (3, 7)).trigram =
        (none, some (Token.mk (3, 7) 0 "w" "l" "NOUN"), none) :=
  c8_trigram_span none (some (Token.mk (3, 7) 0 "w" "l" "NOUN")) none
    (Trigram.mk (none, some (Token.mk (3, 7) 0 "w" "l" "NOUN"), none) (3, 7)) rfl

/-- C9 — `Token` equality is the conjunction of wordform, lemma, POS tag
and text span (the sentence index does not appear in the condition);
comparing against `None` yields `False` without error; comparing against
a value of an incompatible kind raises `TypeError`. -/
theorem c9_token_eq_spec :
    (∀ t u : Token, Token.eqPy t (.tok u) = .ok true ↔
      (t.wordform = u.wordform ∧ t.«lemma» = u.«lemma» ∧
       t.pos_tag = u.pos_tag ∧ t.text_position = u.text_position)) ∧
    (∀ t : Token, Token.eqPy t .none = .ok false) ∧
    (∀ (t : Token) (i : Int), Token.eqPy t (.int i) = .error .typeError) := by
  refine ⟨?_, fun t => rfl, fun t i => rfl⟩
  intro t u
  simp [Token.eqPy, pyEqNone, tokenFieldsEq, Bool.and_eq_true, decide_eq_true_eq,
    and_assoc]

/-- C9 — witness: two tokens that differ only in their sentence index
compare equal through the theorem's field characterization. -/
theorem c9_witness :
    Token.eqPy (Token.mk (1, 2) 5 "w" "l" "X") (.tok (Token.mk (1, 2) 9 "w" "l" "X")) =
      .ok true :=
  (c9_token_eq_spec.1 (Token.mk (1, 2) 5 "w" "l" "X") (Token.mk (1, 2) 9 "w" "l" "X")).mpr
    ⟨rfl, rfl, rfl, rfl⟩

/-- C10 — every requirement dictionary produced by `parse_single_part` uses
only the keys `pos`, `lemma` and `word_form`, and never holds `lemma` and
`word_form` at the same time: `parse_word` contributes exactly one of the
three keys, and the `+` combinator only adds `pos`. -/
theorem c10_requirement_keys (m : Morph) (part : String) (d : Dict)
    (h : parse_single_part m part = .ok d) :
    (∀ k ∈ d.map Prod.fst, k = "pos" ∨ k = "lemma" ∨ k = "word_form") ∧
    ¬("lemma" ∈ d.map Prod.fst ∧ "word_form" ∈ d.map Prod.fst) := by
  unfold parse_single_part at h
  by_cases hc : part.data.contains '+' = true
  · simp only [hc, if_true] at h
    by_cases hlen : (pySplitSep '+' part.data).length > 2
    · rw [if_pos hlen] at h
      exact Except.noConfusion h
    · rw [if_neg hlen] at h
      cases hs : pySplitSep '+' part.data with
      | nil =>
        rw [hs] at h
        exact Except.noConfusion
          (show Except.error (α := Dict) ReqError.tooManyPluses = .ok d from h)
      | cons x xs =>
        cases xs with
        | nil =>
          rw [hs] at h
          exact Except.noConfusion
            (show Except.error (α := Dict) ReqError.tooManyPluses = .ok d from h)
        | cons y ys =>
          cases ys with
          | cons z zs =>
            rw [hs] at h
            exact Except.noConfusion
              (show Except.error (α := Dict) ReqError.tooManyPluses = .ok d from h)
          | nil =>
            rw [hs] at h
            by_cases hg : ((is_a_word (String.mk x) || is_exact_form (String.mk x)) &&
                is_pos_tag (String.mk y)) = true
            · simp only [hg, Bool.not_true, Bool.false_eq_true, if_false] at h
              cases hq : parse_word m (String.mk x) with
              | error e =>
                rw [hq] at h
                exact Except.noConfusion
                  (show Except.error (α := Dict) e = .ok d from h)
              | ok pw =>
                rw [hq] at h
                have h2 : Except.ok (ε := ReqError)
                    (dictUpdate [("pos", Val.s (String.mk y))] pw) = .ok d := h
                rw [← Except.ok.inj h2]
                rcases parse_word_shape m (String.mk x) pw hq with
                  ⟨_, rfl⟩ | ⟨_, v, rfl⟩ | ⟨_, v, rfl⟩ <;>
                    simp [dictUpdate, dictSet]
            · simp only [hg, Bool.not_false, if_true] at h
              exact Except.noConfusion
                (show Except.error (α := Dict) ReqError.invalidCombination = .ok d from h)
  · simp only [hc, if_false] at h
    rcases parse_word_shape m part d h with
      ⟨_, rfl⟩ | ⟨_, v, rfl⟩ | ⟨_, v, rfl⟩ <;> simp

/-- C10 — witness: the invariant instantiated on the concrete segment
`NOUN`, whose requirement dictionary is the single `pos` entry. -/
theorem c10_witness :
    ¬("lemma" ∈ ([("pos", Val.s "NOUN")] : Dict).map Prod.fst ∧
      "word_form" ∈ ([("pos", Val.s "NOUN")] : Dict).map Prod.fst) :=
  (c10_requirement_keys morphNull "NOUN" [("pos", Val.s "NOUN")] rfl).2

end NlpParser










